import Mathlib

/-!
Verification of the Multiflex proof-of-loyalty (PoL) engine.

The definitions below are a shallow embedding of the PoL sources:
`src/pol/pol.h`, `src/pol/pol.cpp`, the level projection in `src/rpc/pol.cpp`
and `src/qt/loyalitypage.cpp`.  C++ `int`/`int64_t` values are modelled as
`Int` (no reachable overflow: points stay in `[0,24]`, heights and months are
small), the `uint32_t` counter `blocks_seen` as `Nat` reduced mod `2^32`,
byte strings as `List Nat`, and the global `std::unordered_map` keyed by the
hex string of the tag as a function `String → Option MinerTagStatus`.
C++ integer division truncates toward zero, hence `Int.tdiv` throughout.
The base emission schedule (`GetBlockSubsidy`) is an external collaborator of
the engine and is taken as an arbitrary function parameter `schedule`.
-/

namespace Pol

/-- C++ `std::clamp(v, lo, hi)`: `v < lo ? lo : hi < v ? hi : v`. -/
def clampInt (v lo hi : Int) : Int :=
  if v < lo then lo else if hi < v then hi else v

/-- Lowercase hexadecimal digit, as produced by `util/strencodings.h` `HexStr`. -/
def hexDigit (n : Nat) : Char :=
  if n < 10 then Char.ofNat (48 + n) else Char.ofNat (87 + n)

/-- The two lowercase hex characters of one byte. -/
def hexByte (b : Nat) : List Char :=
  [hexDigit (b / 16 % 16), hexDigit (b % 16)]

/-- `HexStr(tag)`: the lowercase hex encoding used as the map key in
`OnConnectBlock` and `GetMinerTagStatus`. -/
def HexStr (bs : List Nat) : String :=
  String.mk (bs.foldr (fun b acc => hexByte b ++ acc) [])

/-- `struct MinerTagStatus` from `pol.h`, with its C++ member initializers as
default field values. -/
structure MinerTagStatus where
  seen : Bool := false
  first_seen_height : Int := -1
  last_seen_height : Int := -1
  blocks_seen : Nat := 0
  last_seen_time : Int := 0
  points : Int := 0
  last_seen_month : Int := -1
deriving Repr, DecidableEq

/-- Script opcode `OP_PUSHDATA1`. -/
def OP_PUSHDATA1 : Nat := 76

/-- Script opcode `OP_PUSHDATA2`. -/
def OP_PUSHDATA2 : Nat := 77

/-- Script opcode `OP_PUSHDATA4`. -/
def OP_PUSHDATA4 : Nat := 78

/-- Script opcode `OP_RETURN`, the null-data marker. -/
def OP_RETURN : Nat := 106

/-- Modelled from the spec: `CScript::GetOp` lives in `script/script.h`, which
is not among the PoL sources; the spec describes scripts as "a null-data
marker opcode followed by a single data push" with "premature end of script"
rejected.  This is the standard script opcode reader: it consumes one opcode
byte; opcodes `0x01..0x4b` carry that many immediate data bytes, and
`OP_PUSHDATA1/2/4` carry a 1/2/4-byte little-endian length followed by that
many data bytes.  It returns `(opcode, pushdata, rest)`, or `none` when the
script ends prematurely. -/
def GetOp : List Nat → Option (Nat × List Nat × List Nat)
  | [] => none
  | op :: rest =>
    if op ≤ OP_PUSHDATA4 then
      if op < OP_PUSHDATA1 then
        if rest.length < op then none
        else some (op, rest.take op, rest.drop op)
      else if op = OP_PUSHDATA1 then
        match rest with
        | [] => none
        | n :: r2 => if r2.length < n then none else some (op, r2.take n, r2.drop n)
      else if op = OP_PUSHDATA2 then
        match rest with
        | a :: b :: r2 =>
          let n := a + 256 * b
          if r2.length < n then none else some (op, r2.take n, r2.drop n)
        | _ => none
      else
        match rest with
        | a :: b :: c :: d :: r2 =>
          let n := a + 256 * b + 65536 * c + 16777216 * d
          if r2.length < n then none else some (op, r2.take n, r2.drop n)
        | _ => none
    else some (op, [], rest)

/-- One coinbase output: `nValue` and the raw bytes of its `scriptPubKey`. -/
structure TxOut where
  nValue : Int := 0
  scriptPubKey : List Nat := []
deriving Repr, DecidableEq

/-- The part of `CTransaction` the PoL engine reads: its outputs. -/
structure CTransaction where
  vout : List TxOut := []
deriving Repr, DecidableEq

/-- The part of `CBlock` the PoL engine reads: `vtx`, a vector of possibly
null transaction pointers (`!block.vtx[0]` is checked in the code). -/
structure CBlock where
  vtx : List (Option CTransaction) := []
deriving Repr, DecidableEq

/-- The constant `kMflexId = { 'M','F','L','E','X','I','D' }`. -/
def kMflexId : List Nat := [77, 70, 76, 69, 88, 73, 68]

/-- The body of the output loop of `ExtractMinerTagFromBlock` (pol.cpp lines
75-94) applied to one `scriptPubKey`: two `GetOp` reads, the `OP_RETURN`
check, the minimum-size check, the `kMflexId` comparison against the first 7
payload bytes, and the 4/8/12 tag-length check; `some tag` exactly when the
loop would `return` on this output. -/
def ExtractTagFromOutput (spk : List Nat) : Option (List Nat) :=
  match GetOp spk with
  | none => none
  | some (op, _, it) =>
    if op ≠ OP_RETURN then none
    else
      match GetOp it with
      | none => none
      | some (_, push, _) =>
        if push.length < kMflexId.length + 4 then none
        else if ¬ (push.take kMflexId.length = kMflexId) then none
        else
          let tag_len := push.length - kMflexId.length
          if tag_len = 4 ∨ tag_len = 8 ∨ tag_len = 12 then
            some (push.drop kMflexId.length)
          else none

/-- `ExtractMinerTagFromBlock` (pol.cpp lines 65-97): empty `vtx` or a null
first transaction yields nothing; otherwise the first output of the coinbase
on which the loop body succeeds supplies the tag. -/
def ExtractMinerTagFromBlock (block : CBlock) : Option (List Nat) :=
  match block.vtx with
  | [] => none
  | none :: _ => none
  | some coinbase :: _ =>
    if coinbase.vout.isEmpty then none
    else coinbase.vout.findSome? (fun out => ExtractTagFromOutput out.scriptPubKey)

/-- The configuration the engine reads through `gArgs`:
`-pol_startheight` and `-pol_monthblocks`. -/
structure PolConfig where
  pol_startheight : Int := 1
  pol_monthblocks : Int := 4320
deriving Repr, DecidableEq

/-- `MonthIndex` (pol.cpp lines 30-35). -/
def MonthIndex (height month_blocks : Int) : Int :=
  if month_blocks ≤ 0 then 0
  else if height < 0 then 0
  else height.tdiv month_blocks

/-- The global `g_tag_state` table: hex tag key to status. -/
def Ledger : Type := String → Option MinerTagStatus

/-- The table at process start: empty. -/
def emptyLedger : Ledger := fun _ => none

/-- Store (insert or overwrite) one entry of the table. -/
def Ledger.insert (led : Ledger) (key : String) (s : MinerTagStatus) : Ledger :=
  fun k => if k = key then some s else led k

/-- The tag-update body of `OnConnectBlock` (pol.cpp lines 106-134), run once
extraction has succeeded: `g_tag_state[key]` default-constructs a status when
absent, the unseen / month-transition / same-month update runs, and
`last_seen_height`, `last_seen_time`, `blocks_seen` are always written. -/
def applyTag (cfg : PolConfig) (tag : List Nat) (height : Int)
    (block_time : Int) (led : Ledger) : Ledger :=
  let key := HexStr tag
  let cur_month := MonthIndex height cfg.pol_monthblocks
  let s0 := (led key).getD {}
  let s1 :=
    if ¬ s0.seen then
      { s0 with seen := true, first_seen_height := height,
                last_seen_month := cur_month,
                points := clampInt (s0.points + 2) 0 24 }
    else if s0.last_seen_month < cur_month then
      let missed := cur_month - s0.last_seen_month - 1
      let p1 := if 0 < missed then s0.points - missed * 1 else s0.points
      { s0 with points := clampInt (p1 + 2) 0 24, last_seen_month := cur_month }
    else s0
  Ledger.insert led key
    { s1 with last_seen_height := height, last_seen_time := block_time,
              blocks_seen := (s1.blocks_seen + 1) % 4294967296 }

/-- `OnConnectBlock` (pol.cpp lines 99-139): inert below the start height or
when no tag extracts; otherwise the tag-update body runs. -/
def OnConnectBlock (cfg : PolConfig) (block : CBlock) (height : Int)
    (block_time : Int) (led : Ledger) : Ledger :=
  if height < cfg.pol_startheight then led
  else
    match ExtractMinerTagFromBlock block with
    | none => led
    | some tag => applyTag cfg tag height block_time led

/-- One connected block as the validation pipeline delivers it to the hook:
`(block, height, block_time)`. -/
structure ConnectEvent where
  block : CBlock
  height : Int
  time : Int

/-- Live operation: the hook runs once per connected block, in order. -/
def ConnectAll (cfg : PolConfig) (events : List ConnectEvent) (led : Ledger) : Ledger :=
  events.foldl (fun l e => OnConnectBlock cfg e.block e.height e.time l) led

/-- `GetMinerTagStatus` (pol.cpp lines 141-149), result only. -/
def GetMinerTagStatus (led : Ledger) (tag : List Nat) : Option MinerTagStatus :=
  led (HexStr tag)

/-- `GetMinerTagStatus` in state-passing form: the function uses `find` on
the table (never `operator[]`), so it returns a copy of the entry together
with the table it leaves behind. -/
def GetMinerTagStatusST (led : Ledger) (tag : List Nat) :
    Option MinerTagStatus × Ledger :=
  let key := HexStr tag
  match led key with
  | none => (none, led)
  | some s => (some s, led)

/-- The points value `GetAllowedSubsidy` uses (pol.cpp lines 160-166): the
stored points clamped to `[0,24]` when the tag is known, `0` otherwise. -/
def effectivePoints (led : Ledger) (tag : List Nat) : Int :=
  match GetMinerTagStatus led tag with
  | some st => clampInt st.points 0 24
  | none => 0

/-- `GetAllowedSubsidy` (pol.cpp lines 151-171), with the external
`GetBlockSubsidy` abstracted as `schedule`. -/
def GetAllowedSubsidy (schedule : Int → Int) (led : Ledger) (tag : List Nat)
    (height : Int) : Int :=
  let S := schedule height
  let S_base := S.tdiv 2
  let S_loyal := S - S_base
  let points := effectivePoints led tag
  let bonus := (S_loyal * points).tdiv 24
  S_base + bonus

/-- `GetBaseSubsidy` (pol.cpp lines 173-177). -/
def GetBaseSubsidy (schedule : Int → Int) (height : Int) : Int :=
  (schedule height).tdiv 2

/-- The active chain as `RebuildFromActiveChain` reads it: the tip (absent
when the chain is empty) and, per height, the block and its recorded time
when `chain[height]` exists and `ReadBlock` succeeds. -/
structure ChainView where
  tip : Option Int
  blockAt : Int → Option (CBlock × Int)

/-- The heights `start, start+1, ..., tipH` of the rebuild loop. -/
def heightsToScan (start tipH : Int) : List Int :=
  (List.range (tipH + 1 - start).toNat).map (fun i => start + i)

/-- `RebuildFromActiveChain` (pol.cpp lines 209-256): return untouched when
there is no tip; otherwise clear the table and replay every readable block
from `max 0 startheight` through the tip through `OnConnectBlock`, skipping
heights whose index is missing or whose block fails to read. -/
def RebuildFromActiveChain (cfg : PolConfig) (chain : ChainView) (led : Ledger) : Ledger :=
  match chain.tip with
  | none => led
  | some tipH =>
    let start := max 0 cfg.pol_startheight
    (heightsToScan start tipH).foldl
      (fun l h =>
        match chain.blockAt h with
        | none => l
        | some bt => OnConnectBlock cfg bt.1 h bt.2 l)
      emptyLedger

/-- The readable blocks of the rebuild scan, as connect events in increasing
height order. -/
def readableEvents (cfg : PolConfig) (chain : ChainView) (tipH : Int) :
    List ConnectEvent :=
  (heightsToScan (max 0 cfg.pol_startheight) tipH).filterMap
    (fun h => (chain.blockAt h).map (fun bt => ⟨bt.1, h, bt.2⟩))

/-- Modelled from the spec: a "single data push whose payload" starts a
script — the payload of one standard data-push operation (direct `0x01..0x4b`
lengths or `OP_PUSHDATA1/2/4` with little-endian length), `none` for a
non-push opcode or a premature end of script.  Spec-side formulation, to be
compared with the source-side `GetOp`. -/
def pushDataPayload : List Nat → Option (List Nat)
  | [] => none
  | op :: rest =>
    if op < 76 then
      if rest.length < op then none else some (rest.take op)
    else if op = 76 then
      match rest with
      | [] => none
      | n :: r2 => if r2.length < n then none else some (r2.take n)
    else if op = 77 then
      match rest with
      | a :: b :: r2 =>
        let n := a + 256 * b
        if r2.length < n then none else some (r2.take n)
      | _ => none
    else if op = 78 then
      match rest with
      | a :: b :: c :: d :: r2 =>
        let n := a + 256 * b + 65536 * c + 16777216 * d
        if r2.length < n then none else some (r2.take n)
      | _ => none
    else none

/-- Spec-side qualifying output (spec 4.1): the script begins with the
null-data marker opcode followed by a single data push whose payload starts
with the fixed 7-byte ASCII constant and continues with exactly 4, 8 or 12
further bytes; the tag is those trailing bytes. -/
def specTagOfScript (spk : List Nat) : Option (List Nat) :=
  match spk with
  | [] => none
  | op :: rest =>
    if op = OP_RETURN then
      match pushDataPayload rest with
      | none => none
      | some payload =>
        if payload.take 7 = kMflexId ∧
           (payload.length = 11 ∨ payload.length = 15 ∨ payload.length = 19)
        then some (payload.drop 7) else none
    else none

/-- Spec-side extractor (spec 4.1): nothing without transactions (or with a
null coinbase), otherwise the tag of the first qualifying coinbase output. -/
def specExtractMinerTag (block : CBlock) : Option (List Nat) :=
  match block.vtx with
  | [] => none
  | none :: _ => none
  | some coinbase :: _ =>
    coinbase.vout.findSome? (fun out => specTagOfScript out.scriptPubKey)


/-- A concrete test block: one coinbase output whose script is `OP_RETURN`
followed by a direct 11-byte push of `"MFLEXID"` and the 4-byte tag
`[1,2,3,4]`. -/
def demoScript : List Nat := [106, 11, 77, 70, 76, 69, 88, 73, 68, 1, 2, 3, 4]

/-- A concrete test block holding one coinbase output with `demoScript`. -/
def demoBlock : CBlock :=
  { vtx := [some { vout := [{ nValue := 0, scriptPubKey := demoScript }] }] }

/-- The spec's worked configuration: start height 1, period length 10. -/
def demoCfg : PolConfig := { pol_startheight := 1, pol_monthblocks := 10 }

/-- A concrete two-block chain view: only height 1 is readable. -/
def demoChain : ChainView :=
  { tip := some 2, blockAt := fun h => if h = 1 then some (demoBlock, 7) else none }

/-- The invariant of claim C2: every stored entry has points in `[0, 24]`. -/
def PointsBounded (led : Ledger) : Prop :=
  ∀ k s, led k = some s → 0 ≤ s.points ∧ s.points ≤ 24

namespace Rpc

/-- `PolLevelFromPoints` from `rpc/pol.cpp` lines 47-53. -/
def PolLevelFromPoints (seen : Bool) (points : Int) : Int :=
  if ¬ seen ∨ points ≤ 0 then 0
  else
    let points2 := if 24 < points then 24 else points
    let level := (points2 + 1).tdiv 2
    min 12 (max 0 level)

end Rpc

namespace Qt

/-- `PolLevelFromPoints` from `qt/loyalitypage.cpp` lines 71-79 (note the
swapped argument order in the source). -/
def PolLevelFromPoints (points : Int) (seen : Bool) : Int :=
  if ¬ seen then 0
  else if points ≤ 0 then 0
  else
    let lvl := (points + 1).tdiv 2
    let lvl2 := if lvl < 0 then 0 else lvl
    if 12 < lvl2 then 12 else lvl2

end Qt

end Pol

namespace Pol

lemma clampInt_mem (v lo hi : Int) (h : lo ≤ hi) :
    lo ≤ clampInt v lo hi ∧ clampInt v lo hi ≤ hi := by
  unfold clampInt; split_ifs <;> omega

lemma effectivePoints_mem (led : Ledger) (tag : List Nat) :
    0 ≤ effectivePoints led tag ∧ effectivePoints led tag ≤ 24 := by
  unfold effectivePoints
  cases GetMinerTagStatus led tag with
  | none => simp
  | some st => exact clampInt_mem st.points 0 24 (by norm_num)

lemma tdiv_le_self_of_nonneg (a : Int) (h : 0 ≤ a) : a.tdiv 2 ≤ a := by
  rw [Int.tdiv_eq_ediv h (by norm_num)]
  exact Int.ediv_le_self 2 h

lemma tdiv_mono_nonneg (a b c : Int) (ha : 0 ≤ a) (hab : a ≤ b) (hc : 0 < c) :
    a.tdiv c ≤ b.tdiv c := by
  rw [Int.tdiv_eq_ediv ha (le_of_lt hc), Int.tdiv_eq_ediv (le_trans ha hab) (le_of_lt hc)]
  exact Int.ediv_le_ediv hc hab

lemma loyal_nonneg (S : Int) (h : 0 ≤ S) : 0 ≤ S - S.tdiv 2 := by
  have := tdiv_le_self_of_nonneg S h
  omega

lemma GetAllowedSubsidy_eq (schedule : Int → Int) (led : Ledger) (tag : List Nat)
    (h : Int) :
    GetAllowedSubsidy schedule led tag h
      = (schedule h).tdiv 2
          + ((schedule h - (schedule h).tdiv 2) * effectivePoints led tag).tdiv 24 := rfl

/-- C1: `GetAllowedSubsidy` computes `base_subsidy(h) + floor(loyal_half * points / 24)`
with `base_subsidy(h) = emission_schedule(h) / 2` computed first and
`loyal_half = emission_schedule(h) - base_subsidy(h)`; at `points = 0` it equals the
base subsidy, at `points = 24` exactly the full schedule value, and a never-seen tag
contributes `points = 0`. -/
theorem GetAllowedSubsidy_formula (schedule : Int → Int) (led : Ledger)
    (tag : List Nat) (h : Int) (hS : 0 ≤ schedule h) :
    GetAllowedSubsidy schedule led tag h
      = GetBaseSubsidy schedule h
        + Int.fdiv ((schedule h - GetBaseSubsidy schedule h) * effectivePoints led tag) 24
    ∧ (effectivePoints led tag = 0 →
        GetAllowedSubsidy schedule led tag h = GetBaseSubsidy schedule h)
    ∧ (effectivePoints led tag = 24 →
        GetAllowedSubsidy schedule led tag h = schedule h)
    ∧ (GetMinerTagStatus led tag = none → effectivePoints led tag = 0) := by
  have hbase : GetBaseSubsidy schedule h = (schedule h).tdiv 2 := rfl
  have hloyal : 0 ≤ schedule h - (schedule h).tdiv 2 := loyal_nonneg _ hS
  have hpts := effectivePoints_mem led tag
  refine ⟨?_, ?_, ?_, ?_⟩
  · rw [GetAllowedSubsidy_eq, hbase]
    have hnum : 0 ≤ (schedule h - (schedule h).tdiv 2) * effectivePoints led tag :=
      mul_nonneg hloyal hpts.1
    rw [Int.fdiv_eq_tdiv hnum (by norm_num)]
  · intro h0
    rw [GetAllowedSubsidy_eq, h0, hbase]
    simp
  · intro h24
    rw [GetAllowedSubsidy_eq, h24, Int.mul_tdiv_cancel _ (by norm_num : (24:Int) ≠ 0)]
    ring
  · intro hnone
    unfold effectivePoints
    rw [hnone]

theorem GetAllowedSubsidy_formula_witness :
    GetAllowedSubsidy (fun _ => 101) emptyLedger [1, 2, 3, 4] 7
      = GetBaseSubsidy (fun _ => 101) 7
        + Int.fdiv ((101 - GetBaseSubsidy (fun _ => 101) 7)
            * effectivePoints emptyLedger [1, 2, 3, 4]) 24 :=
  (GetAllowedSubsidy_formula (fun _ => 101) emptyLedger [1, 2, 3, 4] 7 (by norm_num)).1

/-- C8: at a fixed height, the allowed subsidy is monotonically non-decreasing in the
tag's point score: a ledger giving the tag fewer effective points never yields a
larger allowed subsidy. -/
theorem GetAllowedSubsidy_monotone (schedule : Int → Int) (h : Int)
    (l1 l2 : Ledger) (tag : List Nat) (hS : 0 ≤ schedule h)
    (hp : effectivePoints l1 tag ≤ effectivePoints l2 tag) :
    GetAllowedSubsidy schedule l1 tag h ≤ GetAllowedSubsidy schedule l2 tag h := by
  rw [GetAllowedSubsidy_eq, GetAllowedSubsidy_eq]
  have hloyal : 0 ≤ schedule h - (schedule h).tdiv 2 := loyal_nonneg _ hS
  have h1 := (effectivePoints_mem l1 tag).1
  have hmul : (schedule h - (schedule h).tdiv 2) * effectivePoints l1 tag
      ≤ (schedule h - (schedule h).tdiv 2) * effectivePoints l2 tag :=
    mul_le_mul_of_nonneg_left hp hloyal
  have := tdiv_mono_nonneg _ _ 24 (mul_nonneg hloyal h1) hmul (by norm_num)
  omega

theorem GetAllowedSubsidy_monotone_witness :
    GetAllowedSubsidy (fun _ => 100) emptyLedger [1] 3
      ≤ GetAllowedSubsidy (fun _ => 100)
          (Ledger.insert emptyLedger (HexStr [1]) { seen := true, points := 24 }) [1] 3 :=
  GetAllowedSubsidy_monotone (fun _ => 100) 3 emptyLedger
    (Ledger.insert emptyLedger (HexStr [1]) { seen := true, points := 24 }) [1]
    (by norm_num) (by decide)

/-- C7: the RPC and the GUI level projections agree as pure functions of
`(seen, points)`; the level is `0` when unseen or the points are nonpositive and
otherwise the ceiling of `points / 2` clamped to `[1, 12]`, and the spec's sample
table holds. -/
theorem PolLevel_consistent (seen : Bool) (points : Int) :
    Rpc.PolLevelFromPoints seen points = Qt.PolLevelFromPoints points seen
    ∧ ((seen = false ∨ points ≤ 0) → Rpc.PolLevelFromPoints seen points = 0)
    ∧ (seen = true → 1 ≤ points →
        Rpc.PolLevelFromPoints seen points = clampInt (Int.fdiv (points + 1) 2) 1 12)
    ∧ Rpc.PolLevelFromPoints true 0 = 0
    ∧ Rpc.PolLevelFromPoints true 1 = 1
    ∧ Rpc.PolLevelFromPoints true 2 = 1
    ∧ Rpc.PolLevelFromPoints true 3 = 2
    ∧ Rpc.PolLevelFromPoints true 24 = 12
    ∧ Rpc.PolLevelFromPoints false points = 0 := by
  refine ⟨?_, ?_, ?_, by decide, by decide, by decide, by decide, by decide,
    by simp [Rpc.PolLevelFromPoints]⟩
  · cases seen with
    | false => simp [Rpc.PolLevelFromPoints, Qt.PolLevelFromPoints]
    | true =>
      by_cases hp : points ≤ 0
      · simp [Rpc.PolLevelFromPoints, Qt.PolLevelFromPoints, hp]
      · by_cases h24 : points ≤ 24
        · interval_cases points <;> decide
        · unfold Rpc.PolLevelFromPoints Qt.PolLevelFromPoints
          have hgt : 24 < points := by omega
          have e : (points + 1).tdiv 2 = (points + 1) / 2 :=
            Int.tdiv_eq_ediv (by omega) (by norm_num)
          have h13 : 13 ≤ (points + 1) / 2 := by
            have : (26 : Int) / 2 ≤ (points + 1) / 2 :=
              Int.ediv_le_ediv (by norm_num) (by omega)
            omega
          have e25 : Int.tdiv 25 2 = 12 := by decide
          have hnn : ¬ ((points + 1) / 2 < 0) := by omega
          simp only [e]
          simp [hp, hgt, hnn]
          omega
  · intro hcase
    rcases hcase with hs | hp
    · subst hs; simp [Rpc.PolLevelFromPoints]
    · simp [Rpc.PolLevelFromPoints, hp]
  · intro hs hp
    subst hs
    by_cases h24 : points ≤ 24
    · interval_cases points <;> decide
    · unfold Rpc.PolLevelFromPoints
      have hgt : 24 < points := by omega
      have ef : Int.fdiv (points + 1) 2 = (points + 1) / 2 := by
        rw [Int.fdiv_eq_tdiv (by omega) (by norm_num),
            Int.tdiv_eq_ediv (by omega) (by norm_num)]
      have h13 : 13 ≤ (points + 1) / 2 := by
        have : (26 : Int) / 2 ≤ (points + 1) / 2 :=
          Int.ediv_le_ediv (by norm_num) (by omega)
        omega
      have e25 : Int.tdiv 25 2 = 12 := by decide
      simp only [ef]
      simp [clampInt, show ¬ points ≤ 0 by omega, hgt]
      split_ifs <;> omega

theorem PolLevel_consistent_witness :
    Rpc.PolLevelFromPoints true 5 = clampInt (Int.fdiv (5 + 1) 2) 1 12 :=
  (PolLevel_consistent true 5).2.2.1 rfl (by norm_num)

/-- C9: `OnConnectBlock` leaves the whole ledger unchanged below the configured
start height, and whenever tag extraction returns nothing. -/
theorem OnConnectBlock_inert (cfg : PolConfig) (block : CBlock) (height t : Int)
    (led : Ledger) :
    (height < cfg.pol_startheight → OnConnectBlock cfg block height t led = led)
    ∧ (ExtractMinerTagFromBlock block = none →
        OnConnectBlock cfg block height t led = led) := by
  constructor
  · intro hlt
    unfold OnConnectBlock
    rw [if_pos hlt]
  · intro hex
    unfold OnConnectBlock
    split
    · rfl
    · rw [hex]

theorem OnConnectBlock_inert_witness :
    OnConnectBlock {} {} 0 0 emptyLedger = emptyLedger
    ∧ OnConnectBlock {} {} 5 0 emptyLedger = emptyLedger :=
  ⟨(OnConnectBlock_inert {} {} 0 0 emptyLedger).1 (by decide),
   (OnConnectBlock_inert {} {} 5 0 emptyLedger).2 rfl⟩

/-- C10: the status query never mutates the ledger: its state component is the
incoming table, its result is exactly the stored entry (a value, read through the
table lookup), and a never-seen tag yields nothing without creating an entry. -/
theorem GetMinerTagStatus_pure (led : Ledger) (tag : List Nat) :
    (GetMinerTagStatusST led tag).2 = led
    ∧ (GetMinerTagStatusST led tag).1 = GetMinerTagStatus led tag
    ∧ (GetMinerTagStatus led tag = none → (GetMinerTagStatusST led tag).1 = none) := by
  unfold GetMinerTagStatusST GetMinerTagStatus
  cases h : led (HexStr tag) <;> simp [h]

theorem GetMinerTagStatus_pure_witness :
    (GetMinerTagStatusST emptyLedger [2]).1 = none :=
  (GetMinerTagStatus_pure emptyLedger [2]).2.2 rfl

end Pol

namespace Pol

/-- C6: the first-ever update for a tag marks it seen, records the first-seen
height and the current period, and yields exactly 2 points (it also initializes
the always-written fields). -/
theorem OnConnectBlock_first_seen (cfg : PolConfig) (block : CBlock) (height t : Int)
    (led : Ledger) (tag : List Nat)
    (hx : ExtractMinerTagFromBlock block = some tag)
    (hh : cfg.pol_startheight ≤ height)
    (hnew : led (HexStr tag) = none) :
    (OnConnectBlock cfg block height t led) (HexStr tag) =
      some { seen := true, first_seen_height := height, last_seen_height := height,
             blocks_seen := 1, last_seen_time := t, points := 2,
             last_seen_month := MonthIndex height cfg.pol_monthblocks } := by
  unfold OnConnectBlock
  rw [if_neg (by omega), hx]
  simp only [applyTag, hnew, Option.getD_none, Ledger.insert]
  norm_num [clampInt]

theorem OnConnectBlock_first_seen_witness :
    (OnConnectBlock demoCfg demoBlock 5 77 emptyLedger) (HexStr [1, 2, 3, 4]) =
      some { seen := true, first_seen_height := 5, last_seen_height := 5,
             blocks_seen := 1, last_seen_time := 77, points := 2,
             last_seen_month := MonthIndex 5 demoCfg.pol_monthblocks } :=
  OnConnectBlock_first_seen demoCfg demoBlock 5 77 emptyLedger [1, 2, 3, 4]
    (by decide) (by decide) rfl

end Pol

namespace Pol

/-- C3: for an already-seen tag, an update in a strictly later period sets
points to `clamp(points - missed + 2, 0, 24)` with
`missed = period - last_seen_period - 1` and advances `last_seen_period`; an
update in the same period leaves points (and the period) unchanged; and with
period length 10, updates at heights 5 and 25 end at exactly 3 points. -/
theorem OnConnectBlock_seen_update (cfg : PolConfig) (block : CBlock) (height t : Int)
    (led : Ledger) (tag : List Nat) (s0 : MinerTagStatus)
    (hx : ExtractMinerTagFromBlock block = some tag)
    (hh : cfg.pol_startheight ≤ height)
    (hs : led (HexStr tag) = some s0)
    (hseen : s0.seen = true) :
    (s0.last_seen_month < MonthIndex height cfg.pol_monthblocks →
      (OnConnectBlock cfg block height t led) (HexStr tag) =
        some { s0 with
          points := clampInt
            (s0.points - (MonthIndex height cfg.pol_monthblocks - s0.last_seen_month - 1) + 2)
            0 24,
          last_seen_month := MonthIndex height cfg.pol_monthblocks,
          last_seen_height := height, last_seen_time := t,
          blocks_seen := (s0.blocks_seen + 1) % 4294967296 })
    ∧ (MonthIndex height cfg.pol_monthblocks = s0.last_seen_month →
      (OnConnectBlock cfg block height t led) (HexStr tag) =
        some { s0 with last_seen_height := height, last_seen_time := t,
                       blocks_seen := (s0.blocks_seen + 1) % 4294967296 })
    ∧ ((ConnectAll demoCfg [⟨demoBlock, 5, 50⟩, ⟨demoBlock, 25, 99⟩] emptyLedger)
        (HexStr [1, 2, 3, 4])).map MinerTagStatus.points = some 3 := by
  have h1 : ¬ height < cfg.pol_startheight := by omega
  refine ⟨?_, ?_, by decide⟩
  · intro hlt
    by_cases hm : 0 < MonthIndex height cfg.pol_monthblocks - s0.last_seen_month - 1
    · simp only [OnConnectBlock, hx, applyTag]
      simp only [hs, Option.getD_some]
      simp [h1, hseen, hlt, hm, Ledger.insert]
    · have hm0 : MonthIndex height cfg.pol_monthblocks - s0.last_seen_month - 1 = 0 := by
        omega
      simp only [OnConnectBlock, hx, applyTag]
      simp only [hs, Option.getD_some]
      simp [h1, hseen, hlt, hm, hm0, Ledger.insert]
  · intro heq
    have hnlt : ¬ s0.last_seen_month < MonthIndex height cfg.pol_monthblocks := by omega
    simp only [OnConnectBlock, hx, applyTag]
    simp only [hs, Option.getD_some]
    simp [h1, hseen, hnlt, Ledger.insert]

end Pol

namespace Pol

theorem OnConnectBlock_seen_update_witness :
    (OnConnectBlock demoCfg demoBlock 25 99
        (Ledger.insert emptyLedger (HexStr [1, 2, 3, 4])
          (MinerTagStatus.mk true 5 5 1 77 2 0)))
      (HexStr [1, 2, 3, 4]) =
    some (MinerTagStatus.mk true 5 25 2 99 3 2) := by
  have h := (OnConnectBlock_seen_update demoCfg demoBlock 25 99
      (Ledger.insert emptyLedger (HexStr [1, 2, 3, 4]) (MinerTagStatus.mk true 5 5 1 77 2 0))
      [1, 2, 3, 4] (MinerTagStatus.mk true 5 5 1 77 2 0)
      (by decide) (by decide) (by simp [Ledger.insert]) rfl).1 (by decide)
  exact h.trans (by decide)

lemma PointsBounded_applyTag (cfg : PolConfig) (tag : List Nat) (h t : Int)
    (led : Ledger) (H : PointsBounded led) :
    PointsBounded (applyTag cfg tag h t led) := by
  intro k s hk
  simp only [applyTag, Ledger.insert] at hk
  split at hk
  · injection hk with hk2
    subst hk2
    simp only []
    split
    · exact clampInt_mem _ 0 24 (by norm_num)
    · split
      · exact clampInt_mem _ 0 24 (by norm_num)
      · cases hl : led (HexStr tag) with
        | none => simp [hl]
        | some s0 =>
          simp only [hl, Option.getD_some]
          exact H _ s0 hl
  · exact H k s hk

lemma PointsBounded_step (cfg : PolConfig) (b : CBlock) (h t : Int) (led : Ledger)
    (H : PointsBounded led) : PointsBounded (OnConnectBlock cfg b h t led) := by
  unfold OnConnectBlock
  split
  · exact H
  · cases hx : ExtractMinerTagFromBlock b with
    | none => simp only [hx]; exact H
    | some tag => simp only [hx]; exact PointsBounded_applyTag cfg tag h t led H

lemma PointsBounded_connectAll (cfg : PolConfig) (events : List ConnectEvent) :
    ∀ led : Ledger, PointsBounded led → PointsBounded (ConnectAll cfg events led) := by
  induction events with
  | nil => intro led H; exact H
  | cons e es ih =>
    intro led H
    exact ih _ (PointsBounded_step cfg e.block e.height e.time led H)

/-- C2: after any sequence of connect-block updates starting from the empty
ledger, every stored entry's points lie in `[0, 24]`. -/
theorem ConnectAll_points_bounded (cfg : PolConfig) (events : List ConnectEvent)
    (k : String) (s : MinerTagStatus)
    (hk : ConnectAll cfg events emptyLedger k = some s) :
    0 ≤ s.points ∧ s.points ≤ 24 :=
  PointsBounded_connectAll cfg events emptyLedger
    (fun _ _ hx => by simp [emptyLedger] at hx) k s hk

theorem ConnectAll_points_bounded_witness :
    0 ≤ (MinerTagStatus.mk true 5 5 1 77 2 0).points
    ∧ (MinerTagStatus.mk true 5 5 1 77 2 0).points ≤ 24 :=
  ConnectAll_points_bounded demoCfg [⟨demoBlock, 5, 77⟩] (HexStr [1, 2, 3, 4]) _ (by decide)

end Pol


namespace Pol

lemma pushDataPayload_eq_getOp (l : List Nat) :
    pushDataPayload l
      = match GetOp l with
        | none => none
        | some (o, d, _) => if o ≤ OP_PUSHDATA4 then some d else none := by
  cases l with
  | nil => rfl
  | cons op rest =>
    unfold GetOp pushDataPayload OP_PUSHDATA1 OP_PUSHDATA2 OP_PUSHDATA4
    dsimp only
    by_cases h1 : op < 76
    · have e78 : op ≤ 78 := by omega
      simp only [h1, e78, if_true, ite_true]
      split_ifs <;> simp [e78]
    · by_cases h2 : op = 76
      · subst h2
        norm_num
        cases rest with
        | nil => rfl
        | cons n r2 =>
          dsimp only
          split_ifs <;> simp
      · by_cases h3 : op = 77
        · subst h3
          norm_num
          cases rest with
          | nil => rfl
          | cons a r =>
            cases r with
            | nil => rfl
            | cons b r2 =>
              dsimp only
              split_ifs <;> simp
        · by_cases h4 : op = 78
          · subst h4
            norm_num
            cases rest with
            | nil => rfl
            | cons a r =>
              cases r with
              | nil => rfl
              | cons b r' =>
                cases r' with
                | nil => rfl
                | cons c r'' =>
                  cases r'' with
                  | nil => rfl
                  | cons d r2 =>
                    dsimp only
                    split_ifs <;> simp
          · have e78 : ¬ op ≤ 78 := by omega
            rw [if_neg h1, if_neg h2, if_neg h3, if_neg h4]
            simp [e78]

lemma getOp_cons_fst (op : Nat) (rest : List Nat) (o : Nat) (d r : List Nat)
    (h : GetOp (op :: rest) = some (o, d, r)) :
    o = op ∧ (¬ op ≤ OP_PUSHDATA4 → d = []) := by
  unfold GetOp OP_PUSHDATA1 OP_PUSHDATA2 OP_PUSHDATA4 at h
  dsimp only at h
  by_cases h1 : op < 76
  · rw [if_pos (show op ≤ 78 by omega), if_pos h1] at h
    split_ifs at h
    simp only [Option.some.injEq, Prod.mk.injEq] at h
    exact ⟨h.1.symm, fun hc => absurd (show op ≤ 78 by omega) hc⟩
  · by_cases h2 : op = 76
    · subst h2
      norm_num at h
      cases rest with
      | nil => exact absurd h (by simp)
      | cons n r2 =>
        dsimp only at h
        split_ifs at h
        simp only [Option.some.injEq, Prod.mk.injEq] at h
        exact ⟨h.1.symm, fun hc => absurd (by decide) hc⟩
    · by_cases h3 : op = 77
      · subst h3
        norm_num at h
        cases rest with
        | nil => exact absurd h (by simp)
        | cons a t =>
          cases t with
          | nil => exact absurd h (by simp)
          | cons b r2 =>
            dsimp only at h
            split_ifs at h
            simp only [Option.some.injEq, Prod.mk.injEq] at h
            exact ⟨h.1.symm, fun hc => absurd (by decide) hc⟩
      · by_cases h4 : op = 78
        · subst h4
          norm_num at h
          cases rest with
          | nil => exact absurd h (by simp)
          | cons a t =>
            cases t with
            | nil => exact absurd h (by simp)
            | cons b t2 =>
              cases t2 with
              | nil => exact absurd h (by simp)
              | cons c t3 =>
                cases t3 with
                | nil => exact absurd h (by simp)
                | cons d4 r2 =>
                  dsimp only at h
                  split_ifs at h
                  simp only [Option.some.injEq, Prod.mk.injEq] at h
                  exact ⟨h.1.symm, fun hc => absurd (by decide) hc⟩
        · rw [if_neg (show ¬ op ≤ 78 by omega)] at h
          simp only [Option.some.injEq, Prod.mk.injEq] at h
          exact ⟨h.1.symm, fun _ => h.2.1.symm⟩

lemma getOp_data_empty (l : List Nat) (o : Nat) (d r : List Nat)
    (h : GetOp l = some (o, d, r)) (ho : ¬ o ≤ OP_PUSHDATA4) : d = [] := by
  cases l with
  | nil => exact absurd h (by simp [GetOp])
  | cons op rest =>
    obtain ⟨ho1, h2⟩ := getOp_cons_fst op rest o d r h
    exact h2 (ho1 ▸ ho)

lemma extractTag_eq_spec (spk : List Nat) :
    ExtractTagFromOutput spk = specTagOfScript spk := by
  cases spk with
  | nil => rfl
  | cons op rest =>
    by_cases h106 : op = 106
    · subst h106
      have hg : GetOp (106 :: rest) = some (106, [], rest) := rfl
      unfold ExtractTagFromOutput specTagOfScript OP_RETURN
      rw [hg]
      dsimp only
      rw [if_neg (show ¬ (106 : Nat) ≠ 106 by simp), if_pos rfl]
      cases hg2 : GetOp rest with
      | none =>
        have hpp : pushDataPayload rest = none := by
          rw [pushDataPayload_eq_getOp rest, hg2]
        rw [hpp]
      | some odr =>
        obtain ⟨o2, push, r2⟩ := odr
        by_cases ho2 : o2 ≤ OP_PUSHDATA4
        · have hpp : pushDataPayload rest = some push := by
            rw [pushDataPayload_eq_getOp rest, hg2]
            simp [ho2]
          rw [hpp]
          dsimp only
          have hklen : kMflexId.length = 7 := rfl
          rw [hklen]
          by_cases hpre : push.take 7 = kMflexId
          · by_cases hl : push.length < 7 + 4
            · have hno : ¬ (push.length = 11 ∨ push.length = 15 ∨ push.length = 19) := by
                omega
              simp [hl, hpre, hno]
            · by_cases h4 : push.length - 7 = 4 ∨ push.length - 7 = 8 ∨ push.length - 7 = 12
              · have hyes : push.length = 11 ∨ push.length = 15 ∨ push.length = 19 := by
                  omega
                simp [hl, hpre, h4, hyes]
              · have hno : ¬ (push.length = 11 ∨ push.length = 15 ∨ push.length = 19) := by
                  omega
                simp [hl, hpre, h4, hno]
          · by_cases hl : push.length < 7 + 4 <;> simp [hl, hpre]
        · have hd : push = [] := getOp_data_empty rest o2 push r2 hg2 ho2
          subst hd
          have hpp : pushDataPayload rest = none := by
            rw [pushDataPayload_eq_getOp rest, hg2]
            simp [ho2]
          rw [hpp]
          dsimp only
          simp
    · unfold ExtractTagFromOutput specTagOfScript OP_RETURN
      dsimp only
      rw [if_neg h106]
      cases hg : GetOp (op :: rest) with
      | none => rfl
      | some odr =>
        obtain ⟨o, d, r⟩ := odr
        dsimp only
        have ho : o = op := (getOp_cons_fst op rest o d r hg).1
        rw [if_pos (show o ≠ 106 by omega)]

/-- C5: `ExtractMinerTagFromBlock` agrees with the spec-side extractor on every
block: it returns the trailing tag bytes of the first coinbase output whose
script is the null-data marker followed by a data push of the 7-byte constant
plus exactly 4, 8 or 12 further bytes, and returns nothing (without failing)
when there are no transactions, a null coinbase, no outputs, or only
non-qualifying or malformed outputs. -/
theorem ExtractMinerTag_eq_spec (block : CBlock) :
    ExtractMinerTagFromBlock block = specExtractMinerTag block := by
  unfold ExtractMinerTagFromBlock specExtractMinerTag
  cases block.vtx with
  | nil => rfl
  | cons h tl =>
    cases h with
    | none => rfl
    | some coinbase =>
      dsimp only
      by_cases he : coinbase.vout.isEmpty
      · rw [if_pos he]
        have hnil : coinbase.vout = [] := by simpa [List.isEmpty_iff] using he
        rw [hnil, List.findSome?_nil]
      · rw [if_neg he]
        have hfun : (fun out : TxOut => ExtractTagFromOutput out.scriptPubKey)
             = (fun out : TxOut => specTagOfScript out.scriptPubKey) :=
          funext (fun out => extractTag_eq_spec out.scriptPubKey)
        rw [hfun]

lemma rebuild_fold (cfg : PolConfig) (chain : ChainView) (hs : List Int) :
    ∀ led : Ledger,
      hs.foldl (fun l h => match chain.blockAt h with
        | none => l
        | some bt => OnConnectBlock cfg bt.1 h bt.2 l) led
      = ConnectAll cfg
          (hs.filterMap (fun h => (chain.blockAt h).map (fun bt => ⟨bt.1, h, bt.2⟩))) led := by
  induction hs with
  | nil => intro led; rfl
  | cons h t ih =>
    intro led
    cases hb : chain.blockAt h with
    | none =>
      simp only [List.foldl_cons, List.filterMap_cons, hb]
      exact ih _
    | some bt =>
      simp only [List.foldl_cons, List.filterMap_cons, hb, Option.map_some, ConnectAll]
      exact ih _

/-- C4: with a chain tip present, a rebuild ignores the incoming table, clears
it, and replays exactly the chain's readable blocks from `max 0 start` through
the tip in height order through the live update; so the rebuilt ledger equals
the live one, and rebuilding again gives the same result. -/
theorem Rebuild_eq_live (cfg : PolConfig) (chain : ChainView) (led : Ledger) (tipH : Int)
    (htip : chain.tip = some tipH) :
    RebuildFromActiveChain cfg chain led
      = ConnectAll cfg (readableEvents cfg chain tipH) emptyLedger
    ∧ RebuildFromActiveChain cfg chain (RebuildFromActiveChain cfg chain led)
      = RebuildFromActiveChain cfg chain led := by
  have key : ∀ l : Ledger, RebuildFromActiveChain cfg chain l
      = ConnectAll cfg (readableEvents cfg chain tipH) emptyLedger := by
    intro l
    unfold RebuildFromActiveChain readableEvents
    rw [htip]
    exact rebuild_fold cfg chain _ emptyLedger
  exact ⟨key led, (key _).trans (key _).symm⟩

theorem Rebuild_eq_live_witness :
    RebuildFromActiveChain demoCfg demoChain emptyLedger
      = ConnectAll demoCfg (readableEvents demoCfg demoChain 2) emptyLedger :=
  (Rebuild_eq_live demoCfg demoChain emptyLedger 2 rfl).1

end Pol
